import Mathlib

/-!
Verification of the PyCUDA tensor-operation handler (`brainstorm/handlers/pycuda_handler.py`).

Device buffers are modelled as a 1-D flat list of element values together with
shape metadata and a buffer identity (Python object identity), since every
kernel in the source operates on the implicit 1-D flattening of its operands.
Elementwise kernels are modelled over ℚ (exact arithmetic standing for the
fixed 32-bit float dtype); the softmax kernel, which needs `exp`, is modelled
over ℝ.  Fallible handler methods (Python `assert` / `raise`) are modelled
with `Except`.
-/

/-- Errors raised by the handler: `shapeMismatch` is the `assert` in
`set_from_numpy`, `typeMismatch` the `assert` in `get_numpy_copy`,
`notImplemented` the `raise NotImplementedError` in `sum_t`, and
`valueError` the tuple-unpacking failure `n, k = m.shape` on a
non-rank-2 argument in `softmax_m`. -/
inductive HErr where
  | shapeMismatch
  | typeMismatch
  | notImplemented
  | valueError
  deriving DecidableEq, Repr

/-- A `pycuda.gpuarray.GPUArray`: device-resident storage with shape
metadata.  `id` models Python object identity (which object `return out`
returns), `shape` the shape tuple, `data` the flat element contents. -/
structure GpuBuf (α : Type) where
  id : Nat
  shape : List Nat
  data : List α
  deriving DecidableEq, Repr

/-- A host-side numpy array (shape plus flat contents).  Host element
values are modelled by the same carrier type; the dtype cast performed by
`arr.astype(self.dtype)` is an explicit function argument `cast`. -/
structure NpArray (α : Type) where
  shape : List Nat
  data : List α
  deriving DecidableEq, Repr

/-- Fixed element width of the handler dtype (`np.float32`), in bytes. -/
def float32Bytes : Nat := 4

/-- `buf.nbytes` of a GPUArray with the fixed 32-bit float dtype. -/
def nbytesOf {α : Type} (b : GpuBuf α) : Nat := float32Bytes * b.data.length

/-- `pycuda.driver.memcpy_dtod(dest, src, n)`: a raw device-to-device byte
copy.  At the element granularity of the fixed 4-byte dtype it overwrites
the first `n / 4` elements of the destination with the first `n / 4`
elements of the source and returns the number of bytes it was asked to
move. -/
def memcpy_dtod {α : Type} (dest src : List α) (n : Nat) : List α × Nat :=
  (src.take (n / float32Bytes) ++ dest.drop (n / float32Bytes), n)

/-- `PyCudaHandler.copy_to(dest, src)` (source lines 77–80): calls
`drv.memcpy_dtod(dest.gpudata, src.gpudata, dest.nbytes)` — the copy size
is `dest.nbytes`, with no validation against `src`.  Returns the updated
destination contents and the byte count handed to the driver. -/
def copy_to {α : Type} (dest src : GpuBuf α) : GpuBuf α × Nat :=
  let r := memcpy_dtod dest.data src.data (nbytesOf dest)
  ({ dest with data := r.1 }, r.2)

/-- `PyCudaHandler.set_from_numpy(mem, arr)` (source lines 64–68):
`assert mem.shape == arr.shape` (raising the shape-mismatch error
otherwise), then `mem.set(arr.astype(self.dtype))` — the host data is cast
to the fixed dtype by `cast` and transferred into `mem`. -/
def set_from_numpy {α : Type} (cast : α → α) (mem : GpuBuf α) (arr : NpArray α) :
    Except HErr (GpuBuf α) :=
  if mem.shape = arr.shape then
    Except.ok { mem with data := arr.data.map cast }
  else
    Except.error HErr.shapeMismatch

/-- A Python value reaching `get_numpy_copy`: either a native GPUArray or
some other (host) object, for the `type(mem) == self.array_type` check. -/
inductive PyVal (α : Type) where
  | gpu (b : GpuBuf α)
  | host (a : NpArray α)
  deriving DecidableEq, Repr

/-- `PyCudaHandler.get_numpy_copy(mem)` (source lines 70–72):
`assert type(mem) == self.array_type`, then `mem.get()` — a host copy with
the buffer's shape and contents. -/
def get_numpy_copy {α : Type} : PyVal α → Except HErr (NpArray α)
  | PyVal.gpu b => Except.ok { shape := b.shape, data := b.data }
  | PyVal.host _ => Except.error HErr.typeMismatch

/-- `PyCudaHandler.create_from_numpy(arr)` (source lines 74–75):
`gpuarray.to_gpu(arr.astype(self.dtype))` — allocates a fresh device
buffer (fresh object identity `newId`) holding the cast host data. -/
def create_from_numpy {α : Type} (cast : α → α) (newId : Nat) (arr : NpArray α) :
    GpuBuf α :=
  { id := newId, shape := arr.shape, data := arr.data.map cast }

/-! ### Elementwise kernel set

`pycuda.elementwise.ElementwiseKernel` launches one logical thread per flat
index `i`, with `i` ranging over the size of the *first array argument* of
the invocation; the kernel body is the quoted C expression.  `elemwiseRun n
out f` is that launch shape: positions `0..n-1` of the output are written
with `f i`, positions beyond `n` keep their previous contents. -/

def elemwiseRun {α : Type} (n : Nat) (out : List α) (f : Nat → α) : List α :=
  (List.range n).map f ++ out.drop n

/-- `mult_kernel` (source lines 336–340): `out[i] = x[i] * y[i]`, launched
over the size of `x`. -/
def mult_kernel (x y out : List ℚ) : List ℚ :=
  elemwiseRun x.length out (fun i => x.getD i 0 * y.getD i 0)

/-- `mult_add_kernel` (source lines 342–346): `out[i] += x[i] * y[i]`. -/
def mult_add_kernel (x y out : List ℚ) : List ℚ :=
  elemwiseRun x.length out (fun i => out.getD i 0 + x.getD i 0 * y.getD i 0)

/-- `add_mm_kernel` (source lines 354–358): `out[i] = x[i] + y[i]`. -/
def add_mm_kernel (x y out : List ℚ) : List ℚ :=
  elemwiseRun x.length out (fun i => x.getD i 0 + y.getD i 0)

/-- `subtract_mm_kernel` (source lines 366–370): `out[i] = x[i] - y[i]`. -/
def subtract_mm_kernel (x y out : List ℚ) : List ℚ :=
  elemwiseRun x.length out (fun i => x.getD i 0 - y.getD i 0)

/-- `div_kernel` (source lines 420–424): `out[i] = a[i] / b[i]` with no
zero check (exact-arithmetic model of the IEEE division). -/
def div_kernel (a b out : List ℚ) : List ℚ :=
  elemwiseRun a.length out (fun i => a.getD i 0 / b.getD i 0)

/-- `clip_kernel` (source lines 414–418):
`out[i] = fminf(fmaxf(a[i], a_min), a_max)`, launched over the size of
`a` (the first array argument). -/
def clip_kernel (a out : List ℚ) (lo hi : ℚ) : List ℚ :=
  elemwiseRun a.length out (fun i => min (max (a.getD i 0) lo) hi)

/-- `binarize_v_kernel` (source lines 426–430):
`out[i] = v[i/ncols] == (i % ncols) ? 1.0f : 0.0f`, launched over the size
of `out` (the first array argument); the integer `i % ncols` is promoted
to the float carrier for the comparison. -/
def binarize_v_kernel (out v : List ℚ) (ncols : Nat) : List ℚ :=
  elemwiseRun out.length out
    (fun i => if v.getD (i / ncols) 0 = ((i % ncols : Nat) : ℚ) then 1 else 0)

/-- `PyCudaHandler.mult_tt(a, b, out)` (source lines 108–110): invokes
`mult_kernel(a, b, out)`. -/
def mult_tt (a b out : GpuBuf ℚ) : GpuBuf ℚ :=
  { out with data := mult_kernel a.data b.data out.data }

/-- Modelled from the spec: the vendor broadcast multiply
`skcuda.misc.mult_matvec(m, v, out)` of an (M,N) matrix by a (1,N) vector —
each row of `m` is multiplied elementwise by `v`, i.e. flat position `i`
is multiplied by `v[i mod N]`. -/
def cumisc_mult_matvec (m v out : GpuBuf ℚ) : GpuBuf ℚ :=
  { out with
    data := (List.range m.data.length).map
      (fun i => m.data.getD i 0 * v.data.getD (i % v.data.length) 0) }

/-- `PyCudaHandler.mult_mv(m, v, out)` (source lines 164–173): if
`m.shape == v.shape` fall back to the plain elementwise `mult_tt`,
otherwise delegate to `skcuda.misc.mult_matvec`. -/
def mult_mv (m v out : GpuBuf ℚ) : GpuBuf ℚ :=
  if m.shape = v.shape then mult_tt m v out else cumisc_mult_matvec m v out

/-- `PyCudaHandler.binarize_v(v, out)` (source lines 175–177): invokes
`binarize_v_kernel(out, v, out.shape[0], out.shape[1])` (the row count is
passed but unused by the kernel body). -/
def binarize_v (v out : GpuBuf ℚ) : GpuBuf ℚ :=
  { out with data := binarize_v_kernel out.data v.data (out.shape.getD 1 0) }

/-- `PyCudaHandler.clip_t(a, a_min, a_max, out)` (source lines 145–147):
invokes `clip_kernel(a, out, a_min, a_max)`; the call is never rejected. -/
def clip_t (a : GpuBuf ℚ) (lo hi : ℚ) (out : GpuBuf ℚ) : GpuBuf ℚ :=
  { out with data := clip_kernel a.data out.data lo hi }

/-! ### Reduction bridge -/

/-- Modelled from the spec: the vendor axis reduction
`skcuda.misc.sum(a, axis, out)` ("delegate to vendor axis-reduction").
For a rank-2 `(r, c)` array, axis 0 produces the `c` column sums and
axis 1 the `r` row sums; for a rank-1 array axis 0 produces the total sum
and any other axis is out of range (vendor raises); rank 0 admits no
axis. -/
def cumisc_sum_axis (shape : List Nat) (d : List ℚ) (axis : Nat) :
    Except HErr (List ℚ) :=
  match shape with
  | [r, c] =>
      if axis = 0 then
        Except.ok ((List.range c).map
          (fun j => ((List.range r).map (fun i => d.getD (i * c + j) 0)).sum))
      else
        Except.ok ((List.range r).map
          (fun i => ((List.range c).map (fun j => d.getD (i * c + j) 0)).sum))
  | [_n] => if axis = 0 then Except.ok [d.sum] else Except.error HErr.valueError
  | _ => Except.error HErr.valueError

/-- Modelled from the spec: `skcuda.misc.sum(a)` with no axis — a scalar
(0-d) device array holding the sum of all elements. -/
def cumisc_sum_all (a : GpuBuf ℚ) : GpuBuf ℚ :=
  { id := 0, shape := [], data := [a.data.sum] }

/-- `PyCudaHandler.sum_t(a, axis, out)` (source lines 92–98): if
`len(a.shape) < 3 and (axis == 0 or axis == 1)`, delegate to
`cumisc.sum(a, axis, out)`; elif `axis is None`, copy the scalar
`cumisc.sum(a)` into `out` via `copy_to`; else
`raise NotImplementedError`. -/
def sum_t (a : GpuBuf ℚ) (axis : Option Nat) (out : GpuBuf ℚ) :
    Except HErr (GpuBuf ℚ) :=
  if a.shape.length < 3 ∧ (axis = some 0 ∨ axis = some 1) then
    match cumisc_sum_axis a.shape a.data (axis.getD 0) with
    | Except.ok res => Except.ok { out with data := res }
    | Except.error e => Except.error e
  else if axis = none then
    Except.ok (copy_to out (cumisc_sum_all a)).1
  else
    Except.error HErr.notImplemented

/-! ### Activation kernels

The device math functions `exp` and `tanh` used by the activation kernel
bodies are kept abstract as function parameters `e` and `t` (the frame
and dispatch properties proved below hold for every interpretation). -/

/-- `sigmoid_kernel` (source lines 372–376):
`y[i] = 1.0/(1.0 + exp(-1*x[i]))`. -/
def sigmoid_kernel (e : ℚ → ℚ) (x y : List ℚ) : List ℚ :=
  elemwiseRun x.length y (fun i => 1 / (1 + e (-1 * x.getD i 0)))

/-- `sigmoid_deriv_kernel` (source lines 378–382):
`dx[i] = dy[i] * y[i] * (1.0 - y[i])` (launched over the size of `x`,
the first array argument; `x` itself is not read by the body). -/
def sigmoid_deriv_kernel (x y dy dx : List ℚ) : List ℚ :=
  elemwiseRun x.length dx (fun i => dy.getD i 0 * y.getD i 0 * (1 - y.getD i 0))

/-- `tanh_kernel` (source lines 384–388): `y[i] = tanh(x[i])`. -/
def tanh_kernel (t : ℚ → ℚ) (x y : List ℚ) : List ℚ :=
  elemwiseRun x.length y (fun i => t (x.getD i 0))

/-- `tanh_deriv_kernel` (source lines 390–394):
`dx[i] = dy[i] * (1.0 - y[i] * y[i])` (launched over the size of `x`,
the first array argument; `x` itself is not read by the body). -/
def tanh_deriv_kernel (x y dy dx : List ℚ) : List ℚ :=
  elemwiseRun x.length dx (fun i => dy.getD i 0 * (1 - y.getD i 0 * y.getD i 0))

/-- `rel_kernel` (source lines 396–400):
`if (x[i]>0) y[i] = x[i]; else y[i]=0.0;`. -/
def rel_kernel (x y : List ℚ) : List ℚ :=
  elemwiseRun x.length y (fun i => if x.getD i 0 > 0 then x.getD i 0 else 0)

/-- `rel_deriv_kernel` (source lines 402–406):
`if (y[i]>0) dx[i] = dy[i]; else dx[i]=0.0;` (launched over the size of
`x`, the first array argument). -/
def rel_deriv_kernel (x y dy dx : List ℚ) : List ℚ :=
  elemwiseRun x.length dx (fun i => if y.getD i 0 > 0 then dy.getD i 0 else 0)

/-! ### Store-level view of the elementwise operations

For the frame property ("only the output buffer is written") the device
memory is a store mapping buffer ids to contents, and each handler
elementwise method is an update of its output buffer id computed by the
corresponding kernel from the buffers it reads. -/

/-- Device memory: buffer id to flat contents. -/
def Store : Type := Nat → List ℚ

/-- Writing one buffer of the store. -/
def writeBuf (σ : Store) (i : Nat) (d : List ℚ) : Store :=
  fun j => if j = i then d else σ j

/-- One invocation of an elementwise handler method, identified by the
method and the buffer ids of its operands (output id last, as in the
source signatures; for `sigmoid`/`tanh`/`rel` the output is `y`, for the
`*_deriv` methods it is `dx`). -/
inductive ElemCall where
  | multC (a b out : Nat)
  | multAddC (a b out : Nat)
  | addC (a b out : Nat)
  | subtractC (a b out : Nat)
  | divideC (a b out : Nat)
  | clipC (a : Nat) (lo hi : ℚ) (out : Nat)
  | sigmoidC (x y : Nat)
  | sigmoidDerivC (x y dy dx : Nat)
  | tanhC (x y : Nat)
  | tanhDerivC (x y dy dx : Nat)
  | relC (x y : Nat)
  | relDerivC (x y dy dx : Nat)
  deriving DecidableEq, Repr

/-- The buffer id the call writes (the kernel bodies assign only to their
`out` / `y` / `dx` argument). -/
def ElemCall.outId : ElemCall → Nat
  | multC _ _ o => o
  | multAddC _ _ o => o
  | addC _ _ o => o
  | subtractC _ _ o => o
  | divideC _ _ o => o
  | clipC _ _ _ o => o
  | sigmoidC _ y => y
  | sigmoidDerivC _ _ _ dx => dx
  | tanhC _ y => y
  | tanhDerivC _ _ _ dx => dx
  | relC _ y => y
  | relDerivC _ _ _ dx => dx

/-- The input buffer ids of the call. -/
def ElemCall.inIds : ElemCall → List Nat
  | multC a b _ => [a, b]
  | multAddC a b _ => [a, b]
  | addC a b _ => [a, b]
  | subtractC a b _ => [a, b]
  | divideC a b _ => [a, b]
  | clipC a _ _ _ => [a]
  | sigmoidC x _ => [x]
  | sigmoidDerivC x y dy _ => [x, y, dy]
  | tanhC x _ => [x]
  | tanhDerivC x y dy _ => [x, y, dy]
  | relC x _ => [x]
  | relDerivC x y dy _ => [x, y, dy]

/-- Store-level semantics of the elementwise handler methods
(`mult_tt`, `mult_add_tt`, `add_tt`, `subtract_tt`, `divide_tt`,
`clip_t`, `sigmoid`, `tanh`, `rel` and their derivative methods, source
lines 108–155 and 302–324): each one runs its kernel on the contents of
its operand buffers and stores the result at the output buffer id. -/
def runElemCall (e t : ℚ → ℚ) : ElemCall → Store → Store
  | ElemCall.multC a b o, σ => writeBuf σ o (mult_kernel (σ a) (σ b) (σ o))
  | ElemCall.multAddC a b o, σ => writeBuf σ o (mult_add_kernel (σ a) (σ b) (σ o))
  | ElemCall.addC a b o, σ => writeBuf σ o (add_mm_kernel (σ a) (σ b) (σ o))
  | ElemCall.subtractC a b o, σ => writeBuf σ o (subtract_mm_kernel (σ a) (σ b) (σ o))
  | ElemCall.divideC a b o, σ => writeBuf σ o (div_kernel (σ a) (σ b) (σ o))
  | ElemCall.clipC a lo hi o, σ => writeBuf σ o (clip_kernel (σ a) (σ o) lo hi)
  | ElemCall.sigmoidC x y, σ => writeBuf σ y (sigmoid_kernel e (σ x) (σ y))
  | ElemCall.sigmoidDerivC x y dy dx, σ =>
      writeBuf σ dx (sigmoid_deriv_kernel (σ x) (σ y) (σ dy) (σ dx))
  | ElemCall.tanhC x y, σ => writeBuf σ y (tanh_kernel t (σ x) (σ y))
  | ElemCall.tanhDerivC x y dy dx, σ =>
      writeBuf σ dx (tanh_deriv_kernel (σ x) (σ y) (σ dy) (σ dx))
  | ElemCall.relC x y, σ => writeBuf σ y (rel_kernel (σ x) (σ y))
  | ElemCall.relDerivC x y dy dx, σ =>
      writeBuf σ dx (rel_deriv_kernel (σ x) (σ y) (σ dy) (σ dx))

/-! ### The backward-convolution routine

`PyCudaHandler.conv2d_backward_batch` (source lines 236–297) is declared
`@staticmethod` yet its body reads `self`, and it also reads the names
`outputs`, `dw_data` and `db_data`, none of which is a parameter, a local
or a module global.  Python resolves names dynamically, so the method is
modelled at the name-resolution level: the body is a list of statements,
each recorded with the statement kind (descriptor creation, descriptor
setup, gradient library call, descriptor destruction, plain assignment),
the names it binds and the names it reads, in source order.  Executing
the body resolves each read name against the environment; the first
unresolvable name raises a `NameError` carrying that name. -/

/-- Python identifiers occurring in the body of `conv2d_backward_batch`
(module globals, parameters, locals, and the names the body reads without
ever binding them: `self`, `outputs`, `dw_data`, `db_data`). -/
inductive PyName where
  | cudnnM | ctypesM
  | self | outputs | dw_data | db_data
  | out_deltas | inputs | in_deltas | weights | bias
  | weight_deltas | bias_deltas | pad | stride
  | upscalex | upscaley
  | x_desc | id_desc | od_desc | w_desc | dw_desc | b_desc | db_desc
  | conv_desc
  | alpha | beta
  | x_data | id_data | od_data | w_data | b_data | y_data
  deriving DecidableEq, Repr

/-- Statement kinds of the routine's body. -/
inductive StmtKind where
  | createDesc
  | setDesc
  | libCall
  | destroyDesc
  | pureAssign
  deriving DecidableEq, Repr

/-- One Python statement: its kind, the names it binds and the names it
reads (in left-to-right evaluation order). -/
structure PyStmt where
  kind : StmtKind
  binds : List PyName
  uses : List PyName
  deriving DecidableEq, Repr

/-- Sequential execution with dynamic name resolution: the first read of
a name not in the environment raises a `NameError` carrying that name;
a successful statement adds its bindings. -/
def runStmts : List PyStmt → List PyName → Except PyName Unit
  | [], _ => Except.ok ()
  | s :: rest, env =>
    match s.uses.find? (fun u => decide (u ∉ env)) with
    | some u => Except.error u
    | none => runStmts rest (s.binds ++ env)

/-- The body of `conv2d_backward_batch` (source lines 239–297),
statement by statement. -/
def conv2dBackwardBody : List PyStmt := [
  ⟨StmtKind.pureAssign, [PyName.upscalex, PyName.upscaley], []⟩,
  ⟨StmtKind.createDesc, [PyName.x_desc], [PyName.cudnnM]⟩,
  ⟨StmtKind.setDesc, [], [PyName.cudnnM, PyName.x_desc, PyName.self, PyName.inputs]⟩,
  ⟨StmtKind.createDesc, [PyName.id_desc], [PyName.cudnnM]⟩,
  ⟨StmtKind.setDesc, [], [PyName.cudnnM, PyName.id_desc, PyName.self, PyName.in_deltas]⟩,
  ⟨StmtKind.createDesc, [PyName.od_desc], [PyName.cudnnM]⟩,
  ⟨StmtKind.setDesc, [], [PyName.cudnnM, PyName.od_desc, PyName.self, PyName.out_deltas]⟩,
  ⟨StmtKind.createDesc, [PyName.w_desc], [PyName.cudnnM]⟩,
  ⟨StmtKind.setDesc, [], [PyName.cudnnM, PyName.w_desc, PyName.self, PyName.weights]⟩,
  ⟨StmtKind.createDesc, [PyName.dw_desc], [PyName.cudnnM]⟩,
  ⟨StmtKind.setDesc, [], [PyName.cudnnM, PyName.dw_desc, PyName.self, PyName.weight_deltas]⟩,
  ⟨StmtKind.createDesc, [PyName.b_desc], [PyName.cudnnM]⟩,
  ⟨StmtKind.setDesc, [], [PyName.cudnnM, PyName.b_desc, PyName.self, PyName.bias]⟩,
  ⟨StmtKind.createDesc, [PyName.db_desc], [PyName.cudnnM]⟩,
  ⟨StmtKind.setDesc, [], [PyName.cudnnM, PyName.db_desc, PyName.self, PyName.bias_deltas]⟩,
  ⟨StmtKind.createDesc, [PyName.conv_desc], [PyName.cudnnM]⟩,
  ⟨StmtKind.setDesc, [],
    [PyName.cudnnM, PyName.conv_desc, PyName.pad, PyName.pad, PyName.stride,
     PyName.stride, PyName.upscalex, PyName.upscaley, PyName.self]⟩,
  ⟨StmtKind.pureAssign, [PyName.alpha, PyName.beta], []⟩,
  ⟨StmtKind.pureAssign, [PyName.x_data], [PyName.ctypesM, PyName.inputs]⟩,
  ⟨StmtKind.pureAssign, [PyName.id_data], [PyName.ctypesM, PyName.in_deltas]⟩,
  ⟨StmtKind.pureAssign, [PyName.od_data], [PyName.ctypesM, PyName.out_deltas]⟩,
  ⟨StmtKind.pureAssign, [PyName.w_data], [PyName.ctypesM, PyName.weights]⟩,
  ⟨StmtKind.pureAssign, [PyName.b_data], [PyName.ctypesM, PyName.bias]⟩,
  ⟨StmtKind.pureAssign, [PyName.y_data], [PyName.ctypesM, PyName.outputs]⟩,
  ⟨StmtKind.libCall, [],
    [PyName.cudnnM, PyName.self, PyName.alpha, PyName.x_desc, PyName.x_data,
     PyName.id_desc, PyName.id_data, PyName.conv_desc, PyName.beta,
     PyName.dw_desc, PyName.dw_data]⟩,
  ⟨StmtKind.libCall, [],
    [PyName.cudnnM, PyName.self, PyName.alpha, PyName.w_desc, PyName.w_data,
     PyName.id_desc, PyName.id_data, PyName.conv_desc, PyName.beta,
     PyName.od_desc, PyName.od_data]⟩,
  ⟨StmtKind.libCall, [],
    [PyName.cudnnM, PyName.self, PyName.alpha, PyName.od_desc, PyName.od_data,
     PyName.beta, PyName.db_desc, PyName.db_data]⟩,
  ⟨StmtKind.destroyDesc, [], [PyName.cudnnM, PyName.x_desc]⟩,
  ⟨StmtKind.destroyDesc, [], [PyName.cudnnM, PyName.id_desc]⟩,
  ⟨StmtKind.destroyDesc, [], [PyName.cudnnM, PyName.od_desc]⟩,
  ⟨StmtKind.destroyDesc, [], [PyName.cudnnM, PyName.w_desc]⟩,
  ⟨StmtKind.destroyDesc, [], [PyName.cudnnM, PyName.b_desc]⟩,
  ⟨StmtKind.destroyDesc, [], [PyName.cudnnM, PyName.dw_desc]⟩,
  ⟨StmtKind.destroyDesc, [], [PyName.cudnnM, PyName.db_desc]⟩,
  ⟨StmtKind.destroyDesc, [], [PyName.cudnnM, PyName.conv_desc]⟩]

/-- The environment a call of the staticmethod starts from: the module
globals it can reach plus its nine parameters.  `self` is not among them
(the method is a `@staticmethod`), and `outputs`, `dw_data`, `db_data`
are bound nowhere. -/
def conv2dBackwardEnv : List PyName :=
  [PyName.cudnnM, PyName.ctypesM,
   PyName.out_deltas, PyName.inputs, PyName.in_deltas, PyName.weights,
   PyName.bias, PyName.weight_deltas, PyName.bias_deltas, PyName.pad,
   PyName.stride]

/-- Number of statements of a given kind in a body. -/
def countKind (k : StmtKind) (l : List PyStmt) : Nat :=
  (l.filter (fun s => s.kind = k)).length

/-! ### The softmax kernel

`softmax_kernel` (source lines 438–487) runs one 32-thread block per row.
Pass 1 computes the row maximum by a strided scan and a block reduction;
pass 2 writes `exp(x - row_max)` for every row entry and computes the row
total by a second block reduction; pass 3 divides every written entry by
the total.  The strided per-thread scans partition the row, so in exact
arithmetic the two block reductions compute exactly the row maximum and
the row sum; the kernel is modelled row by row at that level, over ℝ
(`exp` is `Real.exp`). -/

/-- The row maximum computed by the kernel's first pass (the reduction of
the per-thread strided maxima; the row is scanned starting from
`-FLT_MAX`, so on a nonempty row this is the maximum element). -/
noncomputable def rowMax : List ℝ → ℝ
  | [] => 0
  | x :: t => t.foldl max x

/-- The kernel's effect on one row: every entry becomes
`exp(x - row_max)` divided by the row total of those exponentials. -/
noncomputable def softmaxRow (xs : List ℝ) : List ℝ :=
  xs.map (fun x =>
    Real.exp (x - rowMax xs) / (xs.map (fun y => Real.exp (y - rowMax xs))).sum)

/-- The whole kernel launch on an `(n, k)` matrix stored flat: block `r`
transforms row `r`, i.e. flat positions `r*k .. r*k + k - 1`. -/
noncomputable def softmaxKernelRun (n k : Nat) (d : List ℝ) : List ℝ :=
  ((List.range n).map (fun r => softmaxRow ((d.drop (r * k)).take k))).flatten

/-- `PyCudaHandler.softmax_m(m, out)` (source lines 326–333):
`n, k = m.shape` (raising on a non-rank-2 argument), launch the kernel
with one block per row writing into `out`, and `return out` — the very
buffer object passed in. -/
noncomputable def softmax_m (m out : GpuBuf ℝ) : Except HErr (GpuBuf ℝ) :=
  match m.shape with
  | [n, k] =>
      Except.ok { out with data := softmaxKernelRun n k m.data ++ out.data.drop (n * k) }
  | _ => Except.error HErr.valueError

/-! ### Theorems -/

lemma elemwiseRun_getD {α : Type} (n : Nat) (out : List α) (f : Nat → α) (d : α)
    (i : Nat) (h : i < n) : (elemwiseRun n out f).getD i d = f i := by
  unfold elemwiseRun
  rw [List.getD_eq_getElem?_getD, List.getElem?_append_left (by simpa using h)]
  simp [List.getElem?_map, List.getElem?_range, h]

/-- C4: `set_from_numpy(dest, host_array)` fails with a ShapeMismatch
error — a recoverable `Except.error`, not an unconditional crash — if and
only if `dest.shape` differs from `host_array.shape`; when the shapes are
equal it casts the host data to the fixed 32-bit float dtype and
transfers it into `dest`. -/
theorem C4_set_from_numpy_spec {α : Type} (cast : α → α) (mem : GpuBuf α)
    (arr : NpArray α) :
    (set_from_numpy cast mem arr = Except.error HErr.shapeMismatch ↔
      mem.shape ≠ arr.shape) ∧
    (mem.shape = arr.shape →
      set_from_numpy cast mem arr = Except.ok { mem with data := arr.data.map cast }) := by
  unfold set_from_numpy
  by_cases h : mem.shape = arr.shape <;> simp [h]

/-- C4 witness: a concrete shape mismatch is rejected with ShapeMismatch
and a concrete shape match uploads the cast data. -/
theorem C4_set_from_numpy_witness :
    set_from_numpy (fun q => q) { id := 0, shape := [2], data := [(1 : ℚ), 2] }
        { shape := [3], data := [3, 4, 5] } = Except.error HErr.shapeMismatch ∧
    set_from_numpy (fun q => q) { id := 0, shape := [2], data := [(1 : ℚ), 2] }
        { shape := [2], data := [3, 4] } =
      Except.ok { id := 0, shape := [2], data := [3, 4] } := by
  constructor
  · exact (C4_set_from_numpy_spec (fun q => q) _ _).1.mpr (by decide)
  · simpa using (C4_set_from_numpy_spec (fun q => q)
      { id := 0, shape := [2], data := [(1 : ℚ), 2] }
      { shape := [2], data := [3, 4] }).2 rfl

/-- C5: uploading a host array with `create_from_numpy` and reading it
back with `get_numpy_copy` (the source names of the spec's
`create_from_device_array` / `get_host_copy`) returns an array equal to
the input cast elementwise to the fixed 32-bit float dtype. -/
theorem C5_upload_readback_roundtrip {α : Type} (cast : α → α) (newId : Nat)
    (arr : NpArray α) :
    get_numpy_copy (PyVal.gpu (create_from_numpy cast newId arr)) =
      Except.ok { shape := arr.shape, data := arr.data.map cast } := rfl

/-- C10: `copy_to(dest, src)` hands the driver exactly `dest.nbytes`
(4 bytes per element of `dest`) with no size validation; when `src` holds
at least as many elements as `dest` the destination receives exactly the
first `dest`-many elements of `src`, and the result never depends on the
trailing part of `src` beyond `dest`'s size. -/
theorem C10_copy_to_spec {α : Type} (dest src : GpuBuf α) :
    (copy_to dest src).2 = float32Bytes * dest.data.length ∧
    (dest.data.length ≤ src.data.length →
      ((copy_to dest src).1).data = src.data.take dest.data.length) ∧
    (∀ src2 : GpuBuf α,
      src2.data.take dest.data.length = src.data.take dest.data.length →
      ((copy_to dest src2).1).data = ((copy_to dest src).1).data) := by
  have hdiv : nbytesOf dest / float32Bytes = dest.data.length :=
    Nat.mul_div_cancel_left _ (by norm_num [float32Bytes])
  refine ⟨rfl, ?_, ?_⟩
  · intro _
    simp [copy_to, memcpy_dtod, hdiv, List.drop_length]
  · intro src2 h
    simp [copy_to, memcpy_dtod, hdiv, h]

/-- C10 witness: copying a 3-element source into a 2-element destination
moves 8 bytes, writes the first two source elements, and ignores the
source's trailing element. -/
theorem C10_copy_to_witness :
    (copy_to { id := 0, shape := [2], data := [(0 : ℚ), 0] }
        { id := 1, shape := [3], data := [(5 : ℚ), 6, 7] }).2 = 8 ∧
    ((copy_to { id := 0, shape := [2], data := [(0 : ℚ), 0] }
        { id := 1, shape := [3], data := [(5 : ℚ), 6, 7] }).1).data = [5, 6] ∧
    ((copy_to { id := 0, shape := [2], data := [(0 : ℚ), 0] }
        { id := 1, shape := [3], data := [(5 : ℚ), 6, 8] }).1).data =
      ((copy_to { id := 0, shape := [2], data := [(0 : ℚ), 0] }
        { id := 1, shape := [3], data := [(5 : ℚ), 6, 7] }).1).data := by
  obtain ⟨h1, h2, h3⟩ := C10_copy_to_spec
    { id := 0, shape := [2], data := [(0 : ℚ), 0] }
    { id := 1, shape := [3], data := [(5 : ℚ), 6, 7] }
  refine ⟨by simpa [float32Bytes] using h1, by simpa using h2 (by decide), ?_⟩
  exact h3 { id := 1, shape := [3], data := [(5 : ℚ), 6, 8] } (by decide)

/-- C6: on equal-shape operands `mult_mv` takes the plain elementwise
fallback `mult_tt`, and for genuinely equal-shape `(1, n)` operands that
fallback computes exactly what the vendor broadcast path
`cumisc_mult_matvec` would (the broadcast is a no-op), so the two paths
are semantically equivalent there. -/
theorem C6_mult_mv_equal_shape_fallback (m v out : GpuBuf ℚ) (n : Nat) :
    (m.shape = v.shape → mult_mv m v out = mult_tt m v out) ∧
    (m.shape = [1, n] → v.shape = [1, n] → m.data.length = n →
      v.data.length = n → out.data.length = n →
      mult_mv m v out = cumisc_mult_matvec m v out) := by
  constructor
  · intro h
    unfold mult_mv
    rw [if_pos h]
  · intro hm hv hml hvl houtl
    unfold mult_mv
    rw [if_pos (hm.trans hv.symm)]
    unfold mult_tt cumisc_mult_matvec mult_kernel elemwiseRun
    congr 1
    rw [hml, ← houtl, List.drop_length, List.append_nil, houtl]
    refine List.map_congr_left ?_
    intro i hi
    rw [List.mem_range] at hi
    rw [hvl, Nat.mod_eq_of_lt hi]

/-- C6 witness: a concrete pair of equal-shape `(1,2)` operands takes the
fallback and agrees with the broadcast path. -/
theorem C6_mult_mv_witness :
    mult_mv { id := 0, shape := [1, 2], data := [(2 : ℚ), 3] }
        { id := 1, shape := [1, 2], data := [(5 : ℚ), 7] }
        { id := 2, shape := [1, 2], data := [(0 : ℚ), 0] } =
      mult_tt { id := 0, shape := [1, 2], data := [(2 : ℚ), 3] }
        { id := 1, shape := [1, 2], data := [(5 : ℚ), 7] }
        { id := 2, shape := [1, 2], data := [(0 : ℚ), 0] } ∧
    mult_mv { id := 0, shape := [1, 2], data := [(2 : ℚ), 3] }
        { id := 1, shape := [1, 2], data := [(5 : ℚ), 7] }
        { id := 2, shape := [1, 2], data := [(0 : ℚ), 0] } =
      cumisc_mult_matvec { id := 0, shape := [1, 2], data := [(2 : ℚ), 3] }
        { id := 1, shape := [1, 2], data := [(5 : ℚ), 7] }
        { id := 2, shape := [1, 2], data := [(0 : ℚ), 0] } := by
  obtain ⟨h1, h2⟩ := C6_mult_mv_equal_shape_fallback
    { id := 0, shape := [1, 2], data := [(2 : ℚ), 3] }
    { id := 1, shape := [1, 2], data := [(5 : ℚ), 7] }
    { id := 2, shape := [1, 2], data := [(0 : ℚ), 0] } 2
  exact ⟨h1 (by decide), h2 rfl rfl (by decide) (by decide) (by decide)⟩

/-- C9: `clip_t(a, a_min, a_max, out)` writes
`min(max(a[i], a_min), a_max)` at every flat index of the output, calling
the kernel unconditionally (no rejection of any bound combination); in
particular when `a_min > a_max` every written element equals `a_max`,
because the lower clamp is applied first. -/
theorem C9_clip_t_spec (a : GpuBuf ℚ) (aMin aMax : ℚ) (out : GpuBuf ℚ)
    (i : Nat) (hlen : a.data.length = out.data.length)
    (hi : i < out.data.length) :
    (clip_t a aMin aMax out).data.getD i 0 =
      min (max (a.data.getD i 0) aMin) aMax ∧
    (aMax < aMin → (clip_t a aMin aMax out).data.getD i 0 = aMax) := by
  have hv : (clip_t a aMin aMax out).data.getD i 0 =
      min (max (a.data.getD i 0) aMin) aMax := by
    unfold clip_t clip_kernel
    exact elemwiseRun_getD _ _ _ _ i (by rw [hlen]; exact hi)
  refine ⟨hv, fun hlt => ?_⟩
  rw [hv]
  exact min_eq_right (le_trans (le_of_lt hlt) (le_max_right _ _))

/-- C9 witness: with bounds `a_min = 3 > a_max = 2`, a concrete element
clips to `a_max = 2`. -/
theorem C9_clip_t_witness :
    (clip_t { id := 0, shape := [1], data := [(5 : ℚ)] } 3 2
        { id := 1, shape := [1], data := [(0 : ℚ)] }).data.getD 0 0 =
      min (max (5 : ℚ) 3) 2 ∧
    (clip_t { id := 0, shape := [1], data := [(5 : ℚ)] } 3 2
        { id := 1, shape := [1], data := [(0 : ℚ)] }).data.getD 0 0 = 2 := by
  obtain ⟨h1, h2⟩ := C9_clip_t_spec { id := 0, shape := [1], data := [(5 : ℚ)] }
    3 2 { id := 1, shape := [1], data := [(0 : ℚ)] } 0 (by decide) (by decide)
  exact ⟨h1, h2 (by norm_num)⟩

/-- C7: `binarize_v(v, out)` one-hot encodes the index vector: the entry
of `out` at row `r`, column `c` (flat index `r*cols + c`) is `1.0` when
`v[r] = c` and `0.0` otherwise; on the index vector `[2, 0]` with 2 rows
and 3 columns it yields `[[0,0,1],[1,0,0]]`. -/
theorem C7_binarize_v_spec (v out : GpuBuf ℚ) (rows cols r c : Nat)
    (hsh : out.shape = [rows, cols]) (hlen : out.data.length = rows * cols)
    (hr : r < rows) (hc : c < cols) :
    (binarize_v v out).data.getD (r * cols + c) 0 =
      (if v.data.getD r 0 = (c : ℚ) then 1 else 0) ∧
    (binarize_v { id := 1, shape := [2], data := [2, 0] }
        { id := 0, shape := [2, 3], data := [0, 0, 0, 0, 0, 0] }).data =
      [0, 0, 1, 1, 0, 0] := by
  have hcols : out.shape.getD 1 0 = cols := by rw [hsh]; rfl
  have hidx : r * cols + c < out.data.length := by
    rw [hlen]
    calc r * cols + c < r * cols + cols := Nat.add_lt_add_left hc _
      _ = (r + 1) * cols := by ring
      _ ≤ rows * cols := Nat.mul_le_mul_right cols hr
  constructor
  · unfold binarize_v binarize_v_kernel
    rw [hcols, elemwiseRun_getD _ _ _ _ _ hidx]
    have hdiv : (r * cols + c) / cols = r := by
      rw [Nat.add_comm, Nat.mul_comm, Nat.add_mul_div_left c r (Nat.lt_of_le_of_lt (Nat.zero_le c) hc)]
      rw [Nat.div_eq_of_lt hc, Nat.zero_add]
    have hmod : (r * cols + c) % cols = c := by
      rw [Nat.add_comm]
      exact (Nat.add_mul_mod_self_right c r cols).trans (Nat.mod_eq_of_lt hc)
    rw [hdiv, hmod]
  · decide

/-- C7 witness: on the spec's example, row 0 of the one-hot encoding of
`[2, 0]` has a `1.0` in column 2. -/
theorem C7_binarize_v_witness :
    (binarize_v { id := 1, shape := [2], data := [(2 : ℚ), 0] }
        { id := 0, shape := [2, 3], data := [0, 0, 0, 0, 0, 0] }).data.getD 2 0 = 1 := by
  have h := (C7_binarize_v_spec
    { id := 1, shape := [2], data := [(2 : ℚ), 0] }
    { id := 0, shape := [2, 3], data := [0, 0, 0, 0, 0, 0] }
    2 3 0 2 rfl (by decide) (by decide) (by decide)).1
  simpa using h

/-- C2: `sum_t(a, axis, out)` with a rank-2 input and axis 0 (resp. 1)
writes the column sums (resp. row sums) of `a` into `out`; with
`axis = None` it writes the scalar sum of all elements of `a` into the
scalar-sized `out`; and for every other rank/axis combination it raises
`NotImplementedError` rather than silently returning anything.  (The
rank-0/1 delegation with axis 0 or 1 also goes to the vendor call and is
covered by the modelled `cumisc_sum_axis`.) -/
theorem C2_sum_t_spec (a out : GpuBuf ℚ) (axis : Option Nat) :
    (∀ r c, a.shape = [r, c] →
      (axis = some 0 → sum_t a axis out = Except.ok { out with
        data := (List.range c).map
          (fun j => ((List.range r).map (fun i => a.data.getD (i * c + j) 0)).sum) }) ∧
      (axis = some 1 → sum_t a axis out = Except.ok { out with
        data := (List.range r).map
          (fun i => ((List.range c).map (fun j => a.data.getD (i * c + j) 0)).sum) })) ∧
    (axis = none → out.data.length = 1 →
      sum_t a axis out = Except.ok { out with data := [a.data.sum] }) ∧
    (¬(a.shape.length < 3 ∧ (axis = some 0 ∨ axis = some 1)) → axis ≠ none →
      sum_t a axis out = Except.error HErr.notImplemented) := by
  refine ⟨fun r c hsh => ⟨fun h0 => ?_, fun h1 => ?_⟩, fun hn hout => ?_, fun hcond hne => ?_⟩
  · subst h0
    unfold sum_t
    rw [if_pos (by simp [hsh])]
    simp [cumisc_sum_axis, hsh]
  · subst h1
    unfold sum_t
    rw [if_pos (by simp [hsh])]
    simp [cumisc_sum_axis, hsh]
  · subst hn
    unfold sum_t
    rw [if_neg (by simp)]
    simp only [if_pos rfl]
    obtain ⟨x, hx⟩ := List.length_eq_one.mp hout
    simp [copy_to, memcpy_dtod, cumisc_sum_all, nbytesOf, hx, float32Bytes]
  · unfold sum_t
    rw [if_neg hcond, if_neg hne]

/-- C2 witness: on a concrete 2×2 matrix, axis 0 gives the column sums,
axis None the scalar total, and axis 2 raises NotImplementedError. -/
theorem C2_sum_t_witness :
    sum_t { id := 0, shape := [2, 2], data := [(1 : ℚ), 2, 3, 4] } (some 0)
        { id := 1, shape := [2], data := [0, 0] } =
      Except.ok (⟨1, [2], (List.range 2).map (fun j => ((List.range 2).map
        (fun i => ([(1 : ℚ), 2, 3, 4]).getD (i * 2 + j) 0)).sum)⟩ : GpuBuf ℚ) ∧
    sum_t { id := 0, shape := [2, 2], data := [(1 : ℚ), 2, 3, 4] } none
        { id := 1, shape := [1], data := [0] } =
      Except.ok { id := 1, shape := [1], data := [(1 : ℚ) + 2 + 3 + 4] } ∧
    sum_t { id := 0, shape := [2, 2], data := [(1 : ℚ), 2, 3, 4] } (some 2)
        { id := 1, shape := [2], data := [0, 0] } =
      Except.error HErr.notImplemented := by
  refine ⟨?_, ?_, ?_⟩
  · exact (((C2_sum_t_spec { id := 0, shape := [2, 2], data := [(1 : ℚ), 2, 3, 4] }
      { id := 1, shape := [2], data := [0, 0] } (some 0)).1 2 2 rfl).1) rfl
  · have h := (C2_sum_t_spec { id := 0, shape := [2, 2], data := [(1 : ℚ), 2, 3, 4] }
      { id := 1, shape := [1], data := [0] } none).2.1 rfl (by decide)
    rw [h]
    norm_num
  · exact (C2_sum_t_spec { id := 0, shape := [2, 2], data := [(1 : ℚ), 2, 3, 4] }
      { id := 1, shape := [2], data := [0, 0] } (some 2)).2.2 (by decide) (by decide)

/-- C8: for every elementwise operation (`mult_tt`, `mult_add_tt`,
`add_tt`, `subtract_tt`, `divide_tt`, `clip_t` and the activation kernels
and their derivative kernels), the store after the call agrees with the
store before it on every buffer id other than the output's — only the
output buffer is written — and, whenever no input buffer id is aliased
with the output id, every input buffer is left unchanged. -/
theorem C8_elemwise_frame (e t : ℚ → ℚ) (c : ElemCall) (σ : Store) :
    (∀ j, j ≠ c.outId → runElemCall e t c σ j = σ j) ∧
    (c.outId ∉ c.inIds → ∀ j ∈ c.inIds, runElemCall e t c σ j = σ j) := by
  have frame : ∀ j, j ≠ c.outId → runElemCall e t c σ j = σ j := by
    intro j hj
    cases c <;> simp_all [runElemCall, writeBuf, ElemCall.outId]
  refine ⟨frame, fun hal j hj => frame j ?_⟩
  intro he
  exact hal (he ▸ hj)

/-- C8 witness: a concrete `mult_tt` call on buffers 0, 1 with output
buffer 2 leaves both input buffers exactly as they were. -/
theorem C8_elemwise_frame_witness :
    runElemCall (fun q => q) (fun q => q) (ElemCall.multC 0 1 2)
        (fun j => [(j : ℚ)]) 0 = [(0 : ℚ)] ∧
    runElemCall (fun q => q) (fun q => q) (ElemCall.multC 0 1 2)
        (fun j => [(j : ℚ)]) 1 = [(1 : ℚ)] := by
  obtain ⟨frame, _⟩ := C8_elemwise_frame (fun q => q) (fun q => q)
    (ElemCall.multC 0 1 2) (fun j => [(j : ℚ)])
  exact ⟨frame 0 (by decide), frame 1 (by decide)⟩

/-- C3 counterexample: at a concrete call (the standard environment of the
staticmethod, holding the module globals and all nine parameters), the
claim as stated is false — the routine does not run to completion
computing gradients with six descriptor creations; instead name
resolution fails on `self` at the very first descriptor-setup statement,
and the body as written contains eight descriptor creations, not six. -/
theorem C3_conv2d_backward_counterexample :
    ¬(runStmts conv2dBackwardBody conv2dBackwardEnv = Except.ok () ∧
      countKind StmtKind.createDesc conv2dBackwardBody = 6) := by
  intro h
  have h1 : runStmts conv2dBackwardBody conv2dBackwardEnv =
      Except.error PyName.self := by rfl
  rw [h1] at h
  exact absurd h.1 (by simp)

/-- C3 amended: every call to `conv2d_backward_batch` raises a
`NameError` on `self` before performing any gradient computation (the
method is a staticmethod, so `self` is never bound, and the body also
reads the unbound names `outputs`, `dw_data`, `db_data`); structurally
the body mirrors the forward path with eight transient descriptor
creations (input, in-delta, out-delta, filter, filter-delta, bias,
bias-delta, convolution — not six), three gradient library calls
(filter-gradient, data-gradient, bias-gradient), and eight descriptor
destroy statements. -/
theorem C3_conv2d_backward_amended (env : List PyName)
    (hc : PyName.cudnnM ∈ env) (hs : PyName.self ∉ env) :
    runStmts conv2dBackwardBody env = Except.error PyName.self ∧
    countKind StmtKind.createDesc conv2dBackwardBody = 8 ∧
    countKind StmtKind.libCall conv2dBackwardBody = 3 ∧
    countKind StmtKind.destroyDesc conv2dBackwardBody = 8 := by
  refine ⟨?_, by decide, by decide, by decide⟩
  simp only [conv2dBackwardBody, runStmts, List.find?]
  simp [hc, hs]

/-- C3 witness: the amended claim at the concrete standard call
environment. -/
theorem C3_conv2d_backward_amended_witness :
    runStmts conv2dBackwardBody conv2dBackwardEnv = Except.error PyName.self ∧
    countKind StmtKind.createDesc conv2dBackwardBody = 8 ∧
    countKind StmtKind.libCall conv2dBackwardBody = 3 ∧
    countKind StmtKind.destroyDesc conv2dBackwardBody = 8 :=
  C3_conv2d_backward_amended conv2dBackwardEnv (by decide) (by decide)

lemma getD_map_range {α : Type} (f : Nat → α) (n i : Nat) (d : α) (h : i < n) :
    ((List.range n).map f).getD i d = f i := by
  rw [List.getD_eq_getElem?_getD, List.getElem?_map]
  simp [List.getElem?_range, h]

lemma sum_map_exp_pos (M : ℝ) (xs : List ℝ) (h : xs ≠ []) :
    0 < (xs.map (fun y => Real.exp (y - M))).sum := by
  match xs, h with
  | x :: t, _ =>
    simp only [List.map_cons, List.sum_cons]
    have ht : 0 ≤ (t.map (fun y => Real.exp (y - M))).sum := by
      refine List.sum_nonneg ?_
      intro a ha
      rw [List.mem_map] at ha
      obtain ⟨y, _, hy⟩ := ha
      exact hy ▸ (Real.exp_pos (y - M)).le
    linarith [Real.exp_pos (x - M)]

/-- On a nonempty row, subtracting the row maximum inside both the
numerator and the denominator cancels: the kernel's stabilized quotient
equals the textbook softmax `exp x / Σ exp`. -/
lemma softmaxRow_normalized (xs : List ℝ) (_h : xs ≠ []) :
    softmaxRow xs = xs.map (fun x => Real.exp x / (xs.map Real.exp).sum) := by
  unfold softmaxRow
  refine List.map_congr_left ?_
  intro x _
  have hsum : (xs.map (fun y => Real.exp (y - rowMax xs))).sum =
      (xs.map Real.exp).sum * Real.exp (-rowMax xs) := by
    have hmap : xs.map (fun y => Real.exp (y - rowMax xs)) =
        xs.map (fun y => Real.exp y * Real.exp (-rowMax xs)) := by
      refine List.map_congr_left ?_
      intro y _
      rw [sub_eq_add_neg, Real.exp_add]
    rw [hmap]
    exact List.sum_map_mul_right xs Real.exp (Real.exp (-rowMax xs))
  rw [hsum, sub_eq_add_neg, Real.exp_add,
    mul_div_mul_right _ _ (Real.exp_ne_zero (-rowMax xs))]

lemma sum_map_exp_pos_plain (xs : List ℝ) (h : xs ≠ []) :
    0 < (xs.map Real.exp).sum := by
  have := sum_map_exp_pos 0 xs h
  simpa using this

/-- Each nonempty row of the kernel output sums to exactly 1. -/
lemma softmaxRow_sum (xs : List ℝ) (h : xs ≠ []) : (softmaxRow xs).sum = 1 := by
  rw [softmaxRow_normalized xs h]
  have hpos := sum_map_exp_pos_plain xs h
  have hmap : xs.map (fun x => Real.exp x / (xs.map Real.exp).sum) =
      xs.map (fun x => Real.exp x * ((xs.map Real.exp).sum)⁻¹) := by
    simp [div_eq_mul_inv]
  rw [hmap, List.sum_map_mul_right]
  exact mul_inv_cancel₀ (ne_of_gt hpos)

/-- Adding one constant to every entry of a nonempty row leaves the
kernel's output for that row unchanged. -/
lemma softmaxRow_shift (xs : List ℝ) (c : ℝ) (h : xs ≠ []) :
    softmaxRow (xs.map (fun x => x + c)) = softmaxRow xs := by
  have hne : xs.map (fun x => x + c) ≠ [] := by simpa using h
  rw [softmaxRow_normalized _ hne, softmaxRow_normalized xs h, List.map_map]
  have hs : ((xs.map (fun x => x + c)).map Real.exp).sum =
      (xs.map Real.exp).sum * Real.exp c := by
    rw [List.map_map]
    have hcomp : (Real.exp ∘ fun x => x + c) = fun x => Real.exp x * Real.exp c := by
      funext y
      simp [Function.comp, Real.exp_add]
    rw [hcomp]
    exact List.sum_map_mul_right xs Real.exp (Real.exp c)
  refine List.map_congr_left ?_
  intro x _
  simp only [Function.comp]
  rw [hs, Real.exp_add, mul_div_mul_right _ _ (Real.exp_ne_zero c)]

lemma flatten_slice {α : Type} (k : Nat) : ∀ (l : List (List α)) (r : Nat),
    (∀ x ∈ l, x.length = k) → r < l.length →
    (l.flatten.drop (r * k)).take k = l.getD r [] := by
  intro l
  induction l with
  | nil =>
    intro r _ hr
    exact absurd hr (Nat.not_lt_zero r)
  | cons x t ih =>
    intro r hk hr
    have hx : x.length = k := hk x (List.mem_cons_self x t)
    cases r with
    | zero =>
      show ((x ++ t.flatten).drop (0 * k)).take k = x
      rw [Nat.zero_mul, List.drop_zero, ← hx, List.take_left]
    | succ r =>
      show ((x ++ t.flatten).drop ((r + 1) * k)).take k = (x :: t).getD (r + 1) []
      have harith : (r + 1) * k = x.length + r * k := by rw [hx]; ring
      rw [harith, List.drop_append, List.getD_cons_succ]
      exact ih r (fun y hy => hk y (List.mem_cons_of_mem x hy))
        (Nat.lt_of_succ_lt_succ hr)

lemma row_take_length {α : Type} (d : List α) (n k r : Nat)
    (hd : d.length = n * k) (hr : r < n) : ((d.drop (r * k)).take k).length = k := by
  rw [List.length_take, List.length_drop, hd]
  have h1 : (r + 1) * k ≤ n * k := Nat.mul_le_mul_right k hr
  rw [Nat.succ_mul] at h1
  omega

/-- The kernel launch on a shifted matrix writes the same values. -/
lemma softmaxKernelRun_shift (n k : Nat) (d : List ℝ) (c : ℝ)
    (hd : d.length = n * k) (hk : 0 < k) :
    softmaxKernelRun n k (d.map (fun x => x + c)) = softmaxKernelRun n k d := by
  unfold softmaxKernelRun
  congr 1
  refine List.map_congr_left ?_
  intro r hr
  rw [List.mem_range] at hr
  have hslice : ((d.map (fun x => x + c)).drop (r * k)).take k =
      ((d.drop (r * k)).take k).map (fun x => x + c) := by
    rw [← List.map_drop, ← List.map_take]
  rw [hslice]
  refine softmaxRow_shift _ c ?_
  refine List.ne_nil_of_length_pos ?_
  rw [row_take_length d n k r hd hr]
  exact hk

/-- C1: `softmax_m(m, out)` on an `(n, k)` matrix (with at least one
column) writes the row-wise numerically stable softmax into `out` — every
row of the result sums to exactly 1 (in this exact-arithmetic model of
the float computation, "sums to 1.0 within floating-point tolerance") —
the output is invariant to adding one constant to an entire input
(here: to every row, via a constant shift of the whole matrix, each
row's maximum being subtracted before exponentiation), and the call
returns the very `out` buffer object it was given. -/
theorem C1_softmax_m_spec (m out : GpuBuf ℝ) (n k : Nat) (c : ℝ)
    (hsh : m.shape = [n, k]) (hlen : m.data.length = n * k) (hk : 0 < k) :
    ∃ res : GpuBuf ℝ, softmax_m m out = Except.ok res ∧ res.id = out.id ∧
      (∀ r, r < n → ((res.data.drop (r * k)).take k).sum = 1) ∧
      softmax_m { m with data := m.data.map (fun x => x + c) } out =
        softmax_m m out := by
  refine ⟨{ out with data := softmaxKernelRun n k m.data ++ out.data.drop (n * k) },
    by simp [softmax_m, hsh], rfl, ?_, ?_⟩
  · intro r hr
    have hrows : ∀ x ∈ (List.range n).map
        (fun j => softmaxRow ((m.data.drop (j * k)).take k)), x.length = k := by
      intro x hx
      rw [List.mem_map] at hx
      obtain ⟨j, hj, rfl⟩ := hx
      rw [List.mem_range] at hj
      unfold softmaxRow
      rw [List.length_map]
      exact row_take_length m.data n k j hlen hj
    have hXlen : (softmaxKernelRun n k m.data).length = n * k := by
      unfold softmaxKernelRun
      rw [List.length_flatten, List.map_map]
      have hconst : (List.range n).map
          (List.length ∘ fun j => softmaxRow ((m.data.drop (j * k)).take k)) =
          (List.range n).map (fun _ => k) := by
        refine List.map_congr_left ?_
        intro j hj
        exact hrows _ (List.mem_map_of_mem _ hj)
      rw [hconst]
      simp [List.map_const, List.sum_replicate, List.length_range]
    have hbound : r * k + k ≤ n * k := by
      have h1 : (r + 1) * k ≤ n * k := Nat.mul_le_mul_right k hr
      rw [Nat.succ_mul] at h1
      exact h1
    rw [List.drop_append_of_le_length (by omega : r * k ≤ (softmaxKernelRun n k m.data).length)]
    rw [List.take_append_of_le_length
      (by rw [List.length_drop, hXlen]; omega : k ≤ ((softmaxKernelRun n k m.data).drop (r * k)).length)]
    unfold softmaxKernelRun
    rw [flatten_slice k _ r hrows (by rw [List.length_map, List.length_range]; exact hr)]
    rw [getD_map_range _ n r [] hr]
    refine softmaxRow_sum _ ?_
    refine List.ne_nil_of_length_pos ?_
    rw [row_take_length m.data n k r hlen hr]
    exact hk
  · simp only [softmax_m, hsh]
    rw [softmaxKernelRun_shift n k m.data c hlen hk]

/-- C1 witness: on the spec's example row `[1000, 1001, 1002]` (as a 1×3
matrix) the softmax call succeeds, returns the `out` object, the row sums
to 1, and shifting the row by a constant leaves the output unchanged. -/
theorem C1_softmax_m_witness :
    ∃ res : GpuBuf ℝ,
      softmax_m { id := 0, shape := [1, 3], data := [1000, 1001, 1002] }
          { id := 1, shape := [1, 3], data := [0, 0, 0] } = Except.ok res ∧
      res.id = 1 ∧
      (∀ r, r < 1 → ((res.data.drop (r * 3)).take 3).sum = 1) ∧
      softmax_m (⟨0, [1, 3],
          ([1000, 1001, 1002] : List ℝ).map (fun x => x + (-1000))⟩ : GpuBuf ℝ)
          { id := 1, shape := [1, 3], data := [0, 0, 0] } =
        softmax_m { id := 0, shape := [1, 3], data := [1000, 1001, 1002] }
          { id := 1, shape := [1, 3], data := [0, 0, 0] } :=
  C1_softmax_m_spec { id := 0, shape := [1, 3], data := [1000, 1001, 1002] }
    { id := 1, shape := [1, 3], data := [0, 0, 0] } 1 3 (-1000)
    rfl (by decide) (by decide)
